import Mathlib

/-!
Verification of the fanotify event-stream decoder (`src/main.go`).

The Go program reads packed fanotify records from a kernel buffer and turns
them into `(path, event mask)` pairs.  We embed the byte-level decoder, the
drain loop of `readEvents`, the outer read loop, and the `maskToHuman`
formatter as executable Lean functions over `List Nat` byte buffers.
Kernel-side effects (`OpenByHandleAt`, `Readlink`, `Open` on the mount
point) are supplied by a pure oracle; the descriptor operations performed by
the decoder are recorded in an explicit trace.
-/

namespace Fanotify

/-! ### Byte-level primitives -/

/-- Little-endian value of a byte list, mirroring `encoding/binary` decoding. -/
def byteLE : List Nat → Nat
  | [] => 0
  | b :: bs => b % 256 + 256 * byteLE bs

/-- Little-endian encoding of `v` into `w` bytes. -/
def encLE : Nat → Nat → List Nat
  | 0, _ => []
  | w + 1, v => v % 256 :: encLE w (v / 256)

/-- Reading `k` bytes at position `pos`, mirroring `io.ReadFull` inside
`binary.Read`: it fails exactly when fewer than `k` bytes remain. -/
def readBytes (buf : List Nat) (pos k : Nat) : Option (List Nat) :=
  if k ≤ buf.length - pos then some ((buf.drop pos).take k) else none

/-- Little-endian integer stored at `[off, off+w)` of a buffer. -/
def sliceLE (bs : List Nat) (off w : Nat) : Nat := byteLE ((bs.drop off).take w)

/-! ### Wire structures (`unix.FanotifyEventMetadata`, `fanotifyEventInfoFid`,
`fileHandleInfo`), decoded little-endian exactly as `binary.Read` does. -/

structure FanotifyEventMetadata where
  event_len : Nat
  vers : Nat
  reserved : Nat
  metadata_len : Nat
  mask : Nat
  fd : Nat
  pid : Nat
deriving DecidableEq

/-- `binary.Read` of the 24-byte `unix.FanotifyEventMetadata`. -/
def parseMetadata (buf : List Nat) (pos : Nat) : Option FanotifyEventMetadata :=
  if 24 ≤ buf.length - pos then
    some
      { event_len := sliceLE buf pos 4
        vers := sliceLE buf (pos + 4) 1
        reserved := sliceLE buf (pos + 5) 1
        metadata_len := sliceLE buf (pos + 6) 2
        mask := sliceLE buf (pos + 8) 8
        fd := sliceLE buf (pos + 16) 4
        pid := sliceLE buf (pos + 20) 4 }
  else none

structure FanotifyEventInfoFid where
  infoType : Nat
  pad : Nat
  infoLen : Nat
  fsid : Nat
deriving DecidableEq

/-- `binary.Read` of the 12-byte `fanotifyEventInfoFid`. -/
def parseInfoFid (buf : List Nat) (pos : Nat) : Option FanotifyEventInfoFid :=
  if 12 ≤ buf.length - pos then
    some
      { infoType := sliceLE buf pos 1
        pad := sliceLE buf (pos + 1) 1
        infoLen := sliceLE buf (pos + 2) 2
        fsid := sliceLE buf (pos + 4) 8 }
  else none

structure FileHandleInfo where
  bytes : Nat
  typ : Nat
deriving DecidableEq

/-- `binary.Read` of the 8-byte `fileHandleInfo`. -/
def parseFileHandleInfo (buf : List Nat) (pos : Nat) : Option FileHandleInfo :=
  if 8 ≤ buf.length - pos then
    some { bytes := sliceLE buf pos 4, typ := sliceLE buf (pos + 4) 4 }
  else none

/-! ### Strings and paths.  Paths are byte strings, modelled as `List Char`. -/

/-- `unix.ByteSliceToString`: the bytes before the first NUL, as characters. -/
def byteSliceToChars (bs : List Nat) : List Char :=
  (bs.takeWhile (fun b => b != 0)).map Char.ofNat

/-- Suffix the kernel appends to `/proc/self/fd` links of unlinked objects. -/
def deletedSuffix : List Char := (" (deleted)").toList

/-- `strings.TrimSuffix`. -/
def trimSuffix (s suf : List Char) : List Char :=
  if List.isSuffixOf suf s then s.take (s.length - suf.length) else s

/-- Split a character list on `'/'` (helper for `path.Clean`). -/
def splitSlash : List Char → List (List Char)
  | [] => [[]]
  | c :: cs =>
    match splitSlash cs with
    | [] => [[c]]
    | g :: gs => if c = '/' then [] :: g :: gs else (c :: g) :: gs

/-- Join components with `'/'` (helper for `path.Clean`). -/
def joinSlash : List (List Char) → List Char
  | [] => []
  | [c] => c
  | c :: cs => c ++ '/' :: joinSlash cs

/-- Go `path.Clean` (unix rules): drop empty and `.` components, resolve `..`
against the component stack (absolute paths drop excess `..`). -/
def cleanPath (p : List Char) : List Char :=
  if p.isEmpty then ['.']
  else
    let rooted : Bool := p.head? == some '/'
    let comps := (splitSlash p).filter (fun c => !c.isEmpty && c != ['.'])
    let stack := comps.foldl
      (fun st c =>
        if c = ['.', '.'] then
          match st with
          | [] => if rooted then [] else [['.', '.']]
          | t :: rest => if t = ['.', '.'] then c :: t :: rest else rest
        else c :: st) []
    let body := joinSlash stack.reverse
    if rooted then '/' :: body
    else if body.isEmpty then ['.'] else body

/-- Go `filepath.Join` on two elements: skip leading empty elements, join with
`'/'`, then `Clean`. -/
def filepathJoin (a b : List Char) : List Char :=
  if a ≠ [] then cleanPath (a ++ '/' :: b)
  else if b ≠ [] then cleanPath b
  else []

/-! ### The decoder.  Kernel calls are an oracle; descriptor activity is a trace. -/

inductive OpenResult where
  | ok (fd : Nat)
  | estale
  | openErr
deriving DecidableEq

/-- Pure model of the kernel interface used by `readEvents`:
`unix.Open` on the watch target, `unix.OpenByHandleAt` (mount descriptor,
handle type, handle bytes), and `os.Readlink` of `/proc/self/fd/<fd>`. -/
structure Oracle where
  openMount : Option Nat
  openByHandle : Nat → Nat → List Nat → OpenResult
  readlink : Nat → Option (List Char)

inductive SysOp where
  | openFd (fd : Nat)
  | closeFd (fd : Nat)
deriving DecidableEq

structure Event where
  mask : Nat
  eventPath : List Char
deriving DecidableEq

inductive RecordOutcome where
  | headerFail
  | panicOut (ops : List SysOp)
  | skip (next : Nat) (diags : List String) (ops : List SysOp)
  | emit (e : Event) (next : Nat) (ops : List SysOp)
deriving DecidableEq

/-- One iteration of the record loop of `readEvents` (src/main.go:111-207),
starting with the reader positioned at `offset`.  `headerFail` is the
`break` on metadata failure; `skip next ds ops` the `continue` paths that
reseek to `offset + Event_len`; `panicOut` the run-time panic of the slice
expression `buf[start:end]` when `start > end` or `end > len(buf)`;
`emit` the successful `log.Info` path. -/
def decodeRecord (oracle : Oracle) (mountFd : Nat) (buf : List Nat) (offset : Nat) :
    RecordOutcome :=
  match parseMetadata buf offset with
  | none => .headerFail
  | some event =>
    let next := offset + event.event_len
    match parseInfoFid buf (offset + 24) with
    | none => .skip next ["failed to read event fid"] []
    | some _fid =>
      match parseFileHandleInfo buf (offset + 36) with
      | none => .skip next ["failed to read file handle info"] []
      | some fhInfo =>
        match readBytes buf (offset + 44) fhInfo.bytes with
        | none => .skip next ["failed to read file handle"] []
        | some fileHandle =>
          match oracle.openByHandle mountFd fhInfo.typ fileHandle with
          | .estale => .skip next [] []
          | .openErr => .skip next ["failed to open file handle"] []
          | .ok fd =>
            match oracle.readlink fd with
            | none => .skip next ["failed to read symlink"] [.openFd fd]
            | some dirRaw =>
              let dir := trimSuffix dirRaw deletedSuffix
              let start := offset + 44 + fhInfo.bytes
              if start ≤ next ∧ next ≤ buf.length then
                let filename := byteSliceToChars ((buf.drop start).take (next - start))
                .emit ⟨event.mask, filepathJoin dir filename⟩ next
                  [.openFd fd, .closeFd fd]
              else .panicOut [.openFd fd, .closeFd fd]

inductive DrainExit where
  | finished
  | headerStop
  | panicked
  | fuelOut
deriving DecidableEq

structure DrainRes where
  events : List Event
  diags : List String
  ops : List SysOp
  exit : DrainExit
  final : Nat
deriving DecidableEq

/-- The inner `for offset < int64(n)` loop of `readEvents`, draining one
delivered buffer.  `fuel` bounds the number of iterations (the Go loop can
diverge on a zero `Event_len`); `fuelOut` marks exhaustion and occurs in no
claim below. -/
def drainLoop (oracle : Oracle) (mountFd : Nat) (buf : List Nat) (n : Nat) :
    Nat → Nat → DrainRes
  | 0, offset =>
    if offset < n then ⟨[], [], [], .fuelOut, offset⟩ else ⟨[], [], [], .finished, offset⟩
  | fuel + 1, offset =>
    if offset < n then
      match decodeRecord oracle mountFd buf offset with
      | .headerFail => ⟨[], ["failed to read event metadata"], [], .headerStop, offset⟩
      | .panicOut ops => ⟨[], [], ops, .panicked, offset⟩
      | .skip next ds ops =>
        let r := drainLoop oracle mountFd buf n fuel next
        ⟨r.events, ds ++ r.diags, ops ++ r.ops, r.exit, r.final⟩
      | .emit e next ops =>
        let r := drainLoop oracle mountFd buf n fuel next
        ⟨e :: r.events, r.diags, ops ++ r.ops, r.exit, r.final⟩
    else ⟨[], [], [], .finished, offset⟩

inductive LoopExit where
  | readErr
  | inputEnd
  | panicked
  | fuelOut
  | mountFail
deriving DecidableEq

structure LoopRes where
  events : List Event
  diags : List String
  ops : List SysOp
  exit : LoopExit
deriving DecidableEq

/-- The outer `for { unix.Read ... }` loop of `readEvents`.  Each element of
`reads` is one `unix.Read` result: `none` is a read error (the loop returns),
`some bs` delivers `bs.length` fresh bytes into the front of the 4096-byte
buffer, leaving the tail from earlier cycles in place. -/
def readLoop (oracle : Oracle) (mountFd : Nat) (fuel : Nat) :
    List (Option (List Nat)) → List Nat → LoopRes
  | [], _ => ⟨[], [], [], .inputEnd⟩
  | none :: _, _ => ⟨[], ["unable to read"], [], .readErr⟩
  | some bs :: rest, buf =>
    let nextBuf := bs ++ buf.drop bs.length
    let d := drainLoop oracle mountFd nextBuf bs.length fuel 0
    match d.exit with
    | .panicked => ⟨d.events, d.diags, d.ops, .panicked⟩
    | .fuelOut => ⟨d.events, d.diags, d.ops, .fuelOut⟩
    | _ =>
      let r := readLoop oracle mountFd fuel rest nextBuf
      ⟨d.events ++ r.events, d.diags ++ r.diags, d.ops ++ r.ops, r.exit⟩

/-- One invocation of `readEvents fd target`: allocate the 4096-byte buffer,
open the mount descriptor (returning early on failure), then run the read
loop.  The first component counts mount descriptors opened by this call. -/
def readEvents (oracle : Oracle) (fuel : Nat) (reads : List (Option (List Nat))) :
    Nat × LoopRes :=
  match oracle.openMount with
  | none => (0, ⟨[], ["unable to get mount fd"], [], .mountFail⟩)
  | some m => (1, readLoop oracle m fuel reads (List.replicate 4096 0))

/-- Mount descriptors opened by `main`'s `for { readEvents(fd, target) }`
restart loop, one session of reads per `readEvents` invocation. -/
def mainMountOpens (oracle : Oracle) (fuel : Nat)
    (sessions : List (List (Option (List Nat)))) : Nat :=
  (sessions.map (fun s => (readEvents oracle fuel s).1)).sum

/-! ### `maskToHuman` -/

/-- The flag list built by `maskToHuman` (src/main.go:36-88): one fixed
source-order test per recognized bit.  The numeric constants are the
`unix.IN_*` values used by the source. -/
def maskFlags (mask : Nat) : List String :=
  (if 0 < mask &&& 0x8 then ["FAN_CLOSE_WRITE"] else []) ++
  (if 0 < mask &&& 0x1 then ["FAN_ACCESS"] else []) ++
  (if 0 < mask &&& 0x4 then ["FAN_ATTRIB"] else []) ++
  (if 0 < mask &&& 0x10 then ["FAN_CLOSE_NOWRITE"] else []) ++
  (if 0 < mask &&& 0x100 then ["FAN_CREATE"] else []) ++
  (if 0 < mask &&& 0x200 then ["FAN_DELETE"] else []) ++
  (if 0 < mask &&& 0x400 then ["FAN_DELETE_SELF"] else []) ++
  (if 0 < mask &&& 0x8000 then ["FAN_IGNORED"] else []) ++
  (if 0 < mask &&& 0x40000000 then ["FAN_ISDIR"] else []) ++
  (if 0 < mask &&& 0x2 then ["FAN_MODIFY"] else []) ++
  (if 0 < mask &&& 0x800 then ["fanMoveSelf"] else []) ++
  (if 0 < mask &&& 0x40 then ["fanMovedFrom"] else []) ++
  (if 0 < mask &&& 0x80 then ["fanMovedTo"] else []) ++
  (if 0 < mask &&& 0x20 then ["FAN_OPEN"] else []) ++
  (if 0 < mask &&& 0x4000 then ["FAN_Q_OVERFLOW"] else []) ++
  (if 0 < mask &&& 0x2000 then ["FAN_UNMOUNT"] else [])

/-- `maskToHuman`: the flag names joined by `", "`. -/
def maskToHuman (mask : Nat) : String := String.intercalate ", " (maskFlags mask)

/-- The recognized bits with their names, in the order the source tests them. -/
def flagTable : List (Nat × String) :=
  [(0x8, "FAN_CLOSE_WRITE"), (0x1, "FAN_ACCESS"), (0x4, "FAN_ATTRIB"),
   (0x10, "FAN_CLOSE_NOWRITE"), (0x100, "FAN_CREATE"), (0x200, "FAN_DELETE"),
   (0x400, "FAN_DELETE_SELF"), (0x8000, "FAN_IGNORED"), (0x40000000, "FAN_ISDIR"),
   (0x2, "FAN_MODIFY"), (0x800, "fanMoveSelf"), (0x40, "fanMovedFrom"),
   (0x80, "fanMovedTo"), (0x20, "FAN_OPEN"), (0x4000, "FAN_Q_OVERFLOW"),
   (0x2000, "FAN_UNMOUNT")]

/-- The canonical output order: all recognized names in table order. -/
def canonicalFlagNames : List String := flagTable.map Prod.snd

/-- Net open-minus-close balance of a descriptor trace. -/
def openCloseDelta (ops : List SysOp) : Int :=
  ops.foldl (fun a o => match o with | .openFd _ => a + 1 | .closeFd _ => a - 1) 0

/-! ### Well-formed synthetic records -/

/-- Abstract description of one well-formed record: event mask, handle type,
raw handle bytes, and the trailing name (without its NUL terminator). -/
structure RecSpec where
  mask : Nat
  fhType : Nat
  fhBytes : List Nat
  name : List Nat
deriving DecidableEq

/-- Declared total record length: 24 header + 12 fid + 8 handle info +
handle payload + name + 1 terminator. -/
def RecSpec.len (r : RecSpec) : Nat := 45 + r.fhBytes.length + r.name.length

/-- Well-formedness: fields fit their wire widths, payload entries are bytes,
name bytes are non-NUL bytes. -/
def RecSpec.WF (r : RecSpec) : Prop :=
  r.mask < 2 ^ 64 ∧ r.fhType < 2 ^ 32 ∧ r.len < 2 ^ 32 ∧
  (∀ b ∈ r.fhBytes, b < 256) ∧ (∀ b ∈ r.name, 0 < b ∧ b < 256)

/-- Encoded 24-byte record header (version 3, metadata length 24, fd and pid
fields zero; the decoder ignores them all). -/
def encHeader (len mask : Nat) : List Nat :=
  encLE 4 len ++ encLE 1 3 ++ encLE 1 0 ++ encLE 2 24 ++ encLE 8 mask ++
  encLE 4 0 ++ encLE 4 0

/-- Encoded 12-byte fid info (info type 2 = DFID_NAME; decoder ignores it). -/
def encFid : List Nat := encLE 1 2 ++ encLE 1 0 ++ encLE 2 0 ++ encLE 8 0

/-- Full wire encoding of a record. -/
def encodeRecord (r : RecSpec) : List Nat :=
  encHeader r.len r.mask ++ encFid ++
  encLE 4 r.fhBytes.length ++ encLE 4 r.fhType ++ r.fhBytes ++ r.name ++ [0]

/-- The event the decoder emits for record `r` once its handle resolved to
the raw link target `dir` (before suffix stripping). -/
def mkEvent (r : RecSpec) (p : Nat × List Char) : Event :=
  ⟨r.mask, filepathJoin (trimSuffix p.2 deletedSuffix) (r.name.map Char.ofNat)⟩

/-- Resolution hypothesis for one record: opening its handle yields
descriptor `p.1` and reading the descriptor link yields `p.2`. -/
def ResolvesTo (oracle : Oracle) (mountFd : Nat) (r : RecSpec) (p : Nat × List Char) : Prop :=
  oracle.openByHandle mountFd r.fhType r.fhBytes = .ok p.1 ∧
  oracle.readlink p.1 = some p.2

/-! ### Concrete fixtures used by witnesses and counterexamples -/

/-- Oracle whose handles of type 1 resolve to descriptor 5 at `/tmp/sub`. -/
def oResolve : Oracle :=
  ⟨some 3, fun _ t _ => if t = 1 then .ok 5 else .estale,
   fun fd => if fd = 5 then some ("/tmp/sub").toList else none⟩

/-- Oracle whose handles of type 1 resolve to descriptor 9 at `/d`. -/
def oDirD : Oracle :=
  ⟨some 3, fun _ t _ => if t = 1 then .ok 9 else .estale,
   fun fd => if fd = 9 then some ("/d").toList else none⟩

/-- Oracle whose handles open (descriptor 7) but whose link read fails. -/
def oLeak : Oracle :=
  ⟨some 3, fun _ t _ => if t = 1 then .ok 7 else .estale, fun _ => none⟩

/-- Oracle for which every handle is stale. -/
def oStale : Oracle := ⟨some 3, fun _ _ _ => .estale, fun _ => none⟩

/-- A lone 24-byte header declaring total length 100, mask `FAN_CREATE`;
the fid sub-record is missing. -/
def bufHdrOnly : List Nat :=
  [100, 0, 0, 0, 3, 0, 24, 0, 0, 1, 0, 0, 0, 0, 0, 0, 0, 0, 0, 0, 0, 0, 0, 0]

/-- A record whose header declares total length 24 although its sub-records
(fid, zero-length handle of type 1) occupy bytes 24-43. -/
def bufShortLen : List Nat :=
  [24, 0, 0, 0, 3, 0, 24, 0, 0, 1, 0, 0, 0, 0, 0, 0, 0, 0, 0, 0, 0, 0, 0, 0] ++
  [2, 0, 0, 0, 0, 0, 0, 0, 0, 0, 0, 0] ++ [0, 0, 0, 0, 1, 0, 0, 0]

/-- A well-formed 45-byte record: zero-length handle of type 1, empty name. -/
def bufEmptyName : List Nat :=
  [45, 0, 0, 0, 3, 0, 24, 0, 0, 1, 0, 0, 0, 0, 0, 0, 0, 0, 0, 0, 0, 0, 0, 0] ++
  [2, 0, 0, 0, 0, 0, 0, 0, 0, 0, 0, 0] ++ [0, 0, 0, 0, 1, 0, 0, 0] ++ [0]

/-- A 46-byte record whose name span is `"ab"` with no NUL terminator. -/
def bufNoNul : List Nat :=
  [46, 0, 0, 0, 3, 0, 24, 0, 0, 1, 0, 0, 0, 0, 0, 0, 0, 0, 0, 0, 0, 0, 0, 0] ++
  [2, 0, 0, 0, 0, 0, 0, 0, 0, 0, 0, 0] ++ [0, 0, 0, 0, 1, 0, 0, 0] ++ [97, 98]

/-- A 4096-byte cycle buffer whose first 24 bytes are a header declaring
total length 60; only 24 bytes were delivered by the read. -/
def bufOverrun : List Nat :=
  [60, 0, 0, 0, 3, 0, 24, 0, 1, 0, 0, 0, 0, 0, 0, 0, 0, 0, 0, 0, 0, 0, 0, 0] ++
  List.replicate 4072 0

/-- The single well-formed record used by the decode-all witness. -/
def recW : RecSpec := ⟨0x100, 1, [7], [97]⟩

/-- A well-formed record with an empty trailing name. -/
def recE : RecSpec := ⟨0x100, 1, [], []⟩

end Fanotify

namespace Fanotify

/-! ### Byte and list lemmas -/

theorem encLE_length (w v : Nat) : (encLE w v).length = w := by
  induction w generalizing v with
  | zero => rfl
  | succ w ih => simp [encLE, ih]

theorem byteLE_encLE (w v : Nat) : byteLE (encLE w v) = v % 256 ^ w := by
  induction w generalizing v with
  | zero => simp [encLE, byteLE, Nat.mod_one]
  | succ w ih =>
    simp only [encLE, byteLE, ih]
    rw [pow_succ, mul_comm (256 ^ w) 256, Nat.mod_mul]
    congr 1
    omega

theorem dropChunk {α : Type} (pre rest : List α) (k : Nat) :
    (pre ++ rest).drop (pre.length + k) = rest.drop k := by
  induction pre with
  | nil => simp
  | cons a t ih =>
    have h : t.length + 1 + k = (t.length + k) + 1 := by omega
    simp [h, ih]

theorem dropPre {α : Type} (pre rest : List α) : (pre ++ rest).drop pre.length = rest := by
  have h := dropChunk pre rest 0
  rw [Nat.add_zero, List.drop_zero] at h
  exact h

theorem takeLen {α : Type} (l rest : List α) : (l ++ rest).take l.length = l := by
  induction l with
  | nil => simp
  | cons a t ih => simp [ih]

theorem takeLenAdd {α : Type} (l rest : List α) (k : Nat) :
    (l ++ rest).take (l.length + k) = l ++ rest.take k := by
  induction l with
  | nil => simp
  | cons a t ih => simp [Nat.succ_add, ih]

theorem sliceShift (pre rest : List Nat) (k w : Nat) :
    sliceLE (pre ++ rest) (pre.length + k) w = sliceLE rest k w := by
  unfold sliceLE
  rw [dropChunk]

theorem sliceShift0 (pre rest : List Nat) (w : Nat) :
    sliceLE (pre ++ rest) pre.length w = sliceLE rest 0 w := by
  simpa using sliceShift pre rest 0 w

theorem sliceSkip (w v j u : Nat) (rest : List Nat) (h : w ≤ j) :
    sliceLE (encLE w v ++ rest) j u = sliceLE rest (j - w) u := by
  unfold sliceLE
  have h2 : j = (encLE w v).length + (j - w) := by rw [encLE_length]; omega
  conv_lhs => rw [h2]
  rw [dropChunk]

theorem sliceEnc (w v : Nat) (rest : List Nat) :
    sliceLE (encLE w v ++ rest) 0 w = v % 256 ^ w := by
  unfold sliceLE
  rw [List.drop_zero]
  have h : (encLE w v ++ rest).take w = encLE w v := by
    have h0 := takeLen (encLE w v) rest
    rwa [encLE_length] at h0
  rw [h, byteLE_encLE]

theorem readBytes_exact (pre mid rest : List Nat) :
    readBytes (pre ++ (mid ++ rest)) pre.length mid.length = some mid := by
  have hc : mid.length ≤ (pre ++ (mid ++ rest)).length - pre.length := by
    simp only [List.length_append]
    omega
  unfold readBytes
  rw [if_pos hc, dropPre, takeLen]

theorem takeWhile_append_zero (nm : List Nat) (h : ∀ b ∈ nm, 0 < b) :
    (nm ++ [0]).takeWhile (fun b => b != 0) = nm := by
  induction nm with
  | nil => simp
  | cons a t ih =>
    have h0 := h a (List.mem_cons_self a t)
    have ha : (a != 0) = true := by
      simp only [bne_iff_ne, ne_eq]
      omega
    simp [List.takeWhile_cons, ha, ih (fun b hb => h b (List.mem_cons_of_mem a hb))]

theorem byteSliceToChars_name (nm : List Nat) (h : ∀ b ∈ nm, 0 < b) :
    byteSliceToChars (nm ++ [0]) = nm.map Char.ofNat := by
  unfold byteSliceToChars
  rw [takeWhile_append_zero nm h]

/-! ### FlagFormatter lemmas -/

theorem flagIfCons (c : Prop) [Decidable c] (s : String) (t : List String) :
    (if c then s :: t else t) = (if c then [s] else []) ++ t := by
  split <;> simp

theorem filterMapCons (mask b : Nat) (s : String) (rest : List (Nat × String)) :
    ((((b, s) :: rest).filter (fun p => decide (0 < mask &&& p.1))).map Prod.snd) =
      (if 0 < mask &&& b then [s] else []) ++
        ((rest.filter (fun p => decide (0 < mask &&& p.1))).map Prod.snd) := by
  by_cases h : 0 < mask &&& b <;> simp [List.filter_cons, h]

theorem maskFlags_eq_filter (mask : Nat) :
    maskFlags mask =
      (flagTable.filter (fun p => decide (0 < mask &&& p.1))).map Prod.snd := by
  simp only [flagTable, filterMapCons, List.filter_nil, List.map_nil, List.append_nil]
  simp only [maskFlags, List.append_assoc]

/-- C8: for every event-kind bitmask the flag formatter yields exactly the
names of the recognized set bits, in the fixed table order (independent of
bit position), with no duplicates and nothing for unset or unrecognized
bits; a mask of only the CREATE bit yields exactly `FAN_CREATE`. -/
theorem maskToHuman_canonical (mask : Nat) :
    maskFlags mask =
      (flagTable.filter (fun p => decide (0 < mask &&& p.1))).map Prod.snd ∧
    List.Sublist (maskFlags mask) canonicalFlagNames ∧
    (maskFlags mask).Nodup ∧
    (∀ s, s ∈ maskFlags mask ↔ ∃ b, (b, s) ∈ flagTable ∧ 0 < mask &&& b) ∧
    maskToHuman 0x100 = "FAN_CREATE" := by
  have heq := maskFlags_eq_filter mask
  have hsub : List.Sublist (maskFlags mask) canonicalFlagNames := by
    rw [heq]
    exact (List.filter_sublist _).map Prod.snd
  have hnodup : (maskFlags mask).Nodup := by
    have hc : canonicalFlagNames.Nodup := by decide
    exact List.Nodup.sublist hsub hc
  refine ⟨heq, hsub, hnodup, ?_, by decide⟩
  intro s
  rw [heq]
  constructor
  · intro hs
    obtain ⟨p, hp, hps⟩ := List.mem_map.mp hs
    obtain ⟨b, s2⟩ := p
    obtain ⟨hmem, hbit⟩ := List.mem_filter.mp hp
    subst hps
    exact ⟨b, hmem, by simpa using hbit⟩
  · intro hs
    obtain ⟨b, hmem, hbit⟩ := hs
    exact List.mem_map.mpr ⟨(b, s), List.mem_filter.mpr ⟨hmem, by simpa using hbit⟩, rfl⟩

end Fanotify

namespace Fanotify

/-! ### Parsing encoded records -/

theorem encHeader_length (len mask : Nat) : (encHeader len mask).length = 24 := by
  simp [encHeader, encLE_length]

theorem encFid_length : encFid.length = 12 := by
  simp [encFid, encLE_length]

theorem encodeRecord_length (r : RecSpec) : (encodeRecord r).length = r.len := by
  simp only [encodeRecord, List.length_append, encHeader_length, encFid_length,
    encLE_length, List.length_cons, List.length_nil, RecSpec.len]
  omega

theorem parseMetadata_enc (pre rest : List Nat) (L M : Nat)
    (hL : L < 2 ^ 32) (hM : M < 2 ^ 64) :
    parseMetadata (pre ++ (encHeader L M ++ rest)) pre.length =
      some ⟨L, 3, 0, 24, M, 0, 0⟩ := by
  have hL4 : L % 4294967296 = L := Nat.mod_eq_of_lt (by simpa using hL)
  have hM8 : M % 18446744073709551616 = M := Nat.mod_eq_of_lt (by simpa using hM)
  have hcond : 24 ≤ (pre ++ (encHeader L M ++ rest)).length - pre.length := by
    simp only [List.length_append, encHeader_length]
    omega
  unfold parseMetadata
  rw [if_pos hcond]
  simp [encHeader, List.append_assoc, sliceShift, sliceShift0, sliceSkip, sliceEnc,
    hL4, hM8]

theorem parseInfoFid_enc (pre rest : List Nat) :
    parseInfoFid (pre ++ (encFid ++ rest)) pre.length = some ⟨2, 0, 0, 0⟩ := by
  have hcond : 12 ≤ (pre ++ (encFid ++ rest)).length - pre.length := by
    simp only [List.length_append, encFid_length]
    omega
  unfold parseInfoFid
  rw [if_pos hcond]
  simp [encFid, List.append_assoc, sliceShift, sliceShift0, sliceSkip, sliceEnc]

theorem parseFileHandleInfo_enc (pre hb rest : List Nat) (T : Nat)
    (hB : hb.length < 2 ^ 32) (hT : T < 2 ^ 32) :
    parseFileHandleInfo (pre ++ (encLE 4 hb.length ++ (encLE 4 T ++ (hb ++ rest))))
      pre.length = some ⟨hb.length, T⟩ := by
  have hB4 : hb.length % 4294967296 = hb.length := Nat.mod_eq_of_lt (by simpa using hB)
  have hT4 : T % 4294967296 = T := Nat.mod_eq_of_lt (by simpa using hT)
  have hcond : 8 ≤ (pre ++ (encLE 4 hb.length ++ (encLE 4 T ++ (hb ++ rest)))).length
      - pre.length := by
    simp only [List.length_append, encLE_length]
    omega
  unfold parseFileHandleInfo
  rw [if_pos hcond]
  simp [sliceShift, sliceShift0, sliceSkip, sliceEnc, hB4, hT4]

/-- Decoding a well-formed encoded record whose handle resolves: the decoder
emits the event with the joined path and advances by the declared length,
opening and closing exactly one descriptor. -/
theorem decodeRecord_encoded (oracle : Oracle) (mountFd : Nat) (pre post : List Nat)
    (r : RecSpec) (fd : Nat) (dir : List Char) (hwf : r.WF)
    (hopen : oracle.openByHandle mountFd r.fhType r.fhBytes = .ok fd)
    (hlink : oracle.readlink fd = some dir) :
    decodeRecord oracle mountFd (pre ++ (encodeRecord r ++ post)) pre.length =
      .emit ⟨r.mask, filepathJoin (trimSuffix dir deletedSuffix) (r.name.map Char.ofNat)⟩
        (pre.length + r.len) [.openFd fd, .closeFd fd] := by
  obtain ⟨hmask, htyp, hlen, hhb, hnm⟩ := hwf
  have hlen' : 45 + r.fhBytes.length + r.name.length < 2 ^ 32 := by
    have h0 := hlen
    unfold RecSpec.len at h0
    exact h0
  have hsplit1 : pre ++ (encodeRecord r ++ post) =
      pre ++ (encHeader r.len r.mask ++ (encFid ++ (encLE 4 r.fhBytes.length ++
        (encLE 4 r.fhType ++ (r.fhBytes ++ (r.name ++ ([0] ++ post))))))) := by
    simp [encodeRecord, List.append_assoc]
  have hm : parseMetadata (pre ++ (encodeRecord r ++ post)) pre.length =
      some ⟨r.len, 3, 0, 24, r.mask, 0, 0⟩ := by
    rw [hsplit1]
    exact parseMetadata_enc _ _ _ _ hlen hmask
  have hsplit2 : pre ++ (encodeRecord r ++ post) =
      (pre ++ encHeader r.len r.mask) ++ (encFid ++ (encLE 4 r.fhBytes.length ++
        (encLE 4 r.fhType ++ (r.fhBytes ++ (r.name ++ ([0] ++ post)))))) := by
    simp [encodeRecord, List.append_assoc]
  have hlen2 : (pre ++ encHeader r.len r.mask).length = pre.length + 24 := by
    simp [List.length_append, encHeader_length]
  have hfid : parseInfoFid (pre ++ (encodeRecord r ++ post)) (pre.length + 24) =
      some ⟨2, 0, 0, 0⟩ := by
    rw [hsplit2, ← hlen2]
    exact parseInfoFid_enc _ _
  have hsplit3 : pre ++ (encodeRecord r ++ post) =
      (pre ++ encHeader r.len r.mask ++ encFid) ++ (encLE 4 r.fhBytes.length ++
        (encLE 4 r.fhType ++ (r.fhBytes ++ (r.name ++ ([0] ++ post))))) := by
    simp [encodeRecord, List.append_assoc]
  have hlen3 : (pre ++ encHeader r.len r.mask ++ encFid).length = pre.length + 36 := by
    simp [List.length_append, encHeader_length, encFid_length]
  have hfh : parseFileHandleInfo (pre ++ (encodeRecord r ++ post)) (pre.length + 36) =
      some ⟨r.fhBytes.length, r.fhType⟩ := by
    rw [hsplit3, ← hlen3]
    exact parseFileHandleInfo_enc _ _ _ _ (by omega) htyp
  have hsplit4 : pre ++ (encodeRecord r ++ post) =
      (pre ++ encHeader r.len r.mask ++ encFid ++ encLE 4 r.fhBytes.length ++
        encLE 4 r.fhType) ++ (r.fhBytes ++ (r.name ++ ([0] ++ post))) := by
    simp [encodeRecord, List.append_assoc]
  have hlen4 : (pre ++ encHeader r.len r.mask ++ encFid ++ encLE 4 r.fhBytes.length ++
      encLE 4 r.fhType).length = pre.length + 44 := by
    simp [List.length_append, encHeader_length, encFid_length, encLE_length]
  have hpay : readBytes (pre ++ (encodeRecord r ++ post)) (pre.length + 44)
      r.fhBytes.length = some r.fhBytes := by
    rw [hsplit4, ← hlen4]
    exact readBytes_exact _ _ _
  have hsplit5 : pre ++ (encodeRecord r ++ post) =
      (pre ++ encHeader r.len r.mask ++ encFid ++ encLE 4 r.fhBytes.length ++
        encLE 4 r.fhType ++ r.fhBytes) ++ (r.name ++ ([0] ++ post)) := by
    simp [encodeRecord, List.append_assoc]
  have hlen5 : (pre ++ encHeader r.len r.mask ++ encFid ++ encLE 4 r.fhBytes.length ++
      encLE 4 r.fhType ++ r.fhBytes).length = pre.length + 44 + r.fhBytes.length := by
    simp only [List.length_append, encHeader_length, encFid_length, encLE_length]
  have hdropname : (pre ++ (encodeRecord r ++ post)).drop
      (pre.length + 44 + r.fhBytes.length) = r.name ++ ([0] ++ post) := by
    rw [hsplit5, ← hlen5, dropPre]
  have hbuflen : (pre ++ (encodeRecord r ++ post)).length =
      pre.length + (r.len + post.length) := by
    simp [List.length_append, encodeRecord_length]
  have harith : pre.length + r.len - (pre.length + 44 + r.fhBytes.length) =
      r.name.length + 1 := by
    unfold RecSpec.len
    omega
  have htake : (r.name ++ ([0] ++ post)).take (r.name.length + 1) = r.name ++ [0] := by
    rw [takeLenAdd]
    simp
  have hcond : pre.length + 44 + r.fhBytes.length ≤ pre.length + r.len ∧
      pre.length + r.len ≤ (pre ++ (encodeRecord r ++ post)).length := by
    constructor
    · unfold RecSpec.len
      omega
    · rw [hbuflen]
      omega
  unfold decodeRecord
  simp only [hm, hfid, hfh, hpay, hopen, hlink]
  rw [if_pos hcond, hdropname, harith, htake,
    byteSliceToChars_name r.name (fun b hb => (hnm b hb).1)]

theorem drainLoop_zero (oracle : Oracle) (mountFd : Nat) (buf : List Nat) (n offset : Nat) :
    drainLoop oracle mountFd buf n 0 offset =
      if offset < n then ⟨[], [], [], .fuelOut, offset⟩
      else ⟨[], [], [], .finished, offset⟩ := rfl

theorem drainLoop_succ (oracle : Oracle) (mountFd : Nat) (buf : List Nat)
    (n fuel offset : Nat) :
    drainLoop oracle mountFd buf n (fuel + 1) offset =
      if offset < n then
        match decodeRecord oracle mountFd buf offset with
        | .headerFail => ⟨[], ["failed to read event metadata"], [], .headerStop, offset⟩
        | .panicOut ops => ⟨[], [], ops, .panicked, offset⟩
        | .skip next ds ops =>
          let r := drainLoop oracle mountFd buf n fuel next
          ⟨r.events, ds ++ r.diags, ops ++ r.ops, r.exit, r.final⟩
        | .emit e next ops =>
          let r := drainLoop oracle mountFd buf n fuel next
          ⟨e :: r.events, r.diags, ops ++ r.ops, r.exit, r.final⟩
      else ⟨[], [], [], .finished, offset⟩ := rfl

/-- Draining a buffer of concatenated well-formed records whose handles all
resolve emits exactly the corresponding events in order. -/
theorem drain_encoded (oracle : Oracle) (mountFd : Nat) :
    ∀ (recs : List RecSpec) (rds : List (Nat × List Char)),
      List.Forall₂ (ResolvesTo oracle mountFd) recs rds →
      ∀ (pre post : List Nat) (fuel : Nat),
        (∀ r ∈ recs, r.WF) → recs.length ≤ fuel →
        drainLoop oracle mountFd (pre ++ ((recs.map encodeRecord).flatten ++ post))
            (pre.length + ((recs.map encodeRecord).flatten).length) fuel pre.length =
          ⟨List.zipWith mkEvent recs rds, [],
           (rds.map (fun p => [SysOp.openFd p.1, SysOp.closeFd p.1])).flatten,
           .finished, pre.length + ((recs.map encodeRecord).flatten).length⟩ := by
  intro recs rds hall
  induction hall with
  | nil =>
    intro pre post fuel _ _
    simp only [List.map_nil, List.flatten_nil, List.length_nil, Nat.add_zero]
    cases fuel with
    | zero => simp [drainLoop_zero]
    | succ f => simp [drainLoop_succ]
  | cons hpair htail ih =>
    rename_i a b l1 l2
    intro pre post fuel hwf hfuel
    cases fuel with
    | zero =>
      simp only [List.length_cons] at hfuel
      omega
    | succ f =>
      obtain ⟨hopen, hlink⟩ := hpair
      have hwfa := hwf a (List.mem_cons_self a l1)
      have hwfrest : ∀ r ∈ l1, r.WF := fun r hr => hwf r (List.mem_cons_of_mem a hr)
      have hfuel' : l1.length ≤ f := by
        simp only [List.length_cons] at hfuel
        omega
      have hElen : (encodeRecord a).length = a.len := encodeRecord_length a
      have ha45 : 45 ≤ a.len := by
        unfold RecSpec.len
        omega
      simp only [List.map_cons, List.flatten_cons]
      have hlt : pre.length <
          pre.length + (encodeRecord a ++ (l1.map encodeRecord).flatten).length := by
        simp only [List.length_append]
        omega
      have hb1 : pre ++ ((encodeRecord a ++ (l1.map encodeRecord).flatten) ++ post) =
          pre ++ (encodeRecord a ++ ((l1.map encodeRecord).flatten ++ post)) := by
        simp [List.append_assoc]
      have hdec : decodeRecord oracle mountFd
          (pre ++ ((encodeRecord a ++ (l1.map encodeRecord).flatten) ++ post))
          pre.length =
          .emit (mkEvent a b) (pre.length + a.len) [.openFd b.1, .closeFd b.1] := by
        rw [hb1]
        have h := decodeRecord_encoded oracle mountFd pre
          ((l1.map encodeRecord).flatten ++ post) a b.1 b.2 hwfa hopen hlink
        simpa [mkEvent] using h
      rw [drainLoop_succ, if_pos hlt]
      simp only [hdec]
      have e1 : pre ++ ((encodeRecord a ++ (l1.map encodeRecord).flatten) ++ post) =
          (pre ++ encodeRecord a) ++ ((l1.map encodeRecord).flatten ++ post) := by
        simp [List.append_assoc]
      have e2 : pre.length + (encodeRecord a ++ (l1.map encodeRecord).flatten).length =
          (pre ++ encodeRecord a).length + ((l1.map encodeRecord).flatten).length := by
        simp only [List.length_append]
        omega
      have e3 : pre.length + a.len = (pre ++ encodeRecord a).length := by
        simp [List.length_append, hElen]
      rw [e1, e2, e3, ih (pre ++ encodeRecord a) post f hwfrest hfuel']
      simp

/-- C1: for every well-formed buffer containing K concatenated records whose
handles all resolve successfully, the decode loop emits exactly K events, in
the order the records appear in the buffer, and each emitted event's full
path equals the resolved directory path joined with that record's trailing
name. -/
theorem decoder_emits_all_wellformed_records (oracle : Oracle) (mountFd : Nat)
    (recs : List RecSpec) (rds : List (Nat × List Char)) (fuel : Nat)
    (hres : List.Forall₂ (ResolvesTo oracle mountFd) recs rds)
    (hwf : ∀ r ∈ recs, r.WF) (hfuel : recs.length ≤ fuel)
    (_hcap : ((recs.map encodeRecord).flatten).length ≤ 4096) :
    (drainLoop oracle mountFd
        ((recs.map encodeRecord).flatten ++
          List.replicate (4096 - ((recs.map encodeRecord).flatten).length) 0)
        ((recs.map encodeRecord).flatten).length fuel 0).events =
      List.zipWith mkEvent recs rds ∧
    (drainLoop oracle mountFd
        ((recs.map encodeRecord).flatten ++
          List.replicate (4096 - ((recs.map encodeRecord).flatten).length) 0)
        ((recs.map encodeRecord).flatten).length fuel 0).events.length = recs.length ∧
    (drainLoop oracle mountFd
        ((recs.map encodeRecord).flatten ++
          List.replicate (4096 - ((recs.map encodeRecord).flatten).length) 0)
        ((recs.map encodeRecord).flatten).length fuel 0).exit = .finished := by
  have h := drain_encoded oracle mountFd recs rds hres []
    (List.replicate (4096 - ((recs.map encodeRecord).flatten).length) 0) fuel hwf hfuel
  simp only [List.nil_append, List.length_nil, Nat.zero_add] at h
  rw [h]
  refine ⟨rfl, ?_, rfl⟩
  have hl := List.Forall₂.length_eq hres
  simp [hl]

/-- Witness for C1 at a concrete one-record buffer resolving to `/tmp/sub`. -/
theorem decoder_emits_all_wellformed_records_check :
    recW.WF ∧ ([recW] : List RecSpec).length ≤ 1 ∧
    (((([recW] : List RecSpec).map encodeRecord).flatten).length ≤ 4096) ∧
    (drainLoop oResolve 3
        ((([recW] : List RecSpec).map encodeRecord).flatten ++
          List.replicate (4096 - ((([recW] : List RecSpec).map encodeRecord).flatten).length) 0)
        ((([recW] : List RecSpec).map encodeRecord).flatten).length 1 0).events =
      List.zipWith mkEvent [recW] [(5, ("/tmp/sub").toList)] := by
  have hw : recW.WF := by
    unfold RecSpec.WF
    refine ⟨by decide, by decide, by decide, by decide, by decide⟩
  have hall : ∀ r ∈ [recW], r.WF := by
    intro r hr
    rw [List.mem_singleton] at hr
    subst hr
    exact hw
  refine ⟨hw, by decide, by decide, ?_⟩
  exact (decoder_emits_all_wellformed_records oResolve 3 [recW]
    [(5, ("/tmp/sub").toList)] 1
    (List.Forall₂.cons ⟨by decide, by decide⟩ List.Forall₂.nil)
    hall (by decide) (by decide)).1

/-- C2: when the fixed header parses but a later step fails, no event is
emitted for the record, the next offset is exactly `offset + Event_len`,
and the drain loop continues at that record boundary. -/
theorem subrecord_failure_resyncs (oracle : Oracle) (mountFd : Nat) (buf : List Nat)
    (offset n fuel : Nat) (ev : FanotifyEventMetadata) (next : Nat)
    (ds : List String) (ops : List SysOp)
    (hm : parseMetadata buf offset = some ev)
    (hskip : decodeRecord oracle mountFd buf offset = .skip next ds ops)
    (hlt : offset < n) :
    next = offset + ev.event_len ∧
    (drainLoop oracle mountFd buf n (fuel + 1) offset).events =
      (drainLoop oracle mountFd buf n fuel next).events := by
  constructor
  · simp only [decodeRecord, hm] at hskip
    cases h1 : parseInfoFid buf (offset + 24) with
    | none =>
      simp only [h1] at hskip
      injection hskip with ha hb hc
      omega
    | some fid =>
      simp only [h1] at hskip
      cases h2 : parseFileHandleInfo buf (offset + 36) with
      | none =>
        simp only [h2] at hskip
        injection hskip with ha hb hc
        omega
      | some fh =>
        simp only [h2] at hskip
        cases h3 : readBytes buf (offset + 44) fh.bytes with
        | none =>
          simp only [h3] at hskip
          injection hskip with ha hb hc
          omega
        | some payload =>
          simp only [h3] at hskip
          cases h4 : oracle.openByHandle mountFd fh.typ payload with
          | estale =>
            simp only [h4] at hskip
            injection hskip with ha hb hc
            omega
          | openErr =>
            simp only [h4] at hskip
            injection hskip with ha hb hc
            omega
          | ok fd =>
            simp only [h4] at hskip
            cases h5 : oracle.readlink fd with
            | none =>
              simp only [h5] at hskip
              injection hskip with ha hb hc
              omega
            | some dir =>
              simp only [h5] at hskip
              by_cases h6 : offset + 44 + fh.bytes ≤ offset + ev.event_len ∧
                  offset + ev.event_len ≤ buf.length
              · rw [if_pos h6] at hskip
                simp at hskip
              · rw [if_neg h6] at hskip
                simp at hskip
  · rw [drainLoop_succ, if_pos hlt]
    simp only [hskip]

/-- Witness for C2: the fid read fails after a valid header declaring
length 100, and the decoder reseeks to offset 100. -/
theorem subrecord_failure_resyncs_check :
    parseMetadata bufHdrOnly 0 = some ⟨100, 3, 0, 24, 256, 0, 0⟩ ∧
    decodeRecord oStale 3 bufHdrOnly 0 = .skip 100 ["failed to read event fid"] [] ∧
    0 < 24 ∧
    ((100 : Nat) = 0 + (100 : Nat) ∧
      (drainLoop oStale 3 bufHdrOnly 24 1 0).events =
        (drainLoop oStale 3 bufHdrOnly 24 0 100).events) := by
  refine ⟨by decide, by decide, by decide, ?_⟩
  exact subrecord_failure_resyncs oStale 3 bufHdrOnly 0 24 0 ⟨100, 3, 0, 24, 256, 0, 0⟩
    100 ["failed to read event fid"] [] (by decide) (by decide) (by decide)

/-- C5: a stale handle yields no event, no error diagnostic, and the offset
advances by the declared record length. -/
theorem stale_handle_silently_skipped (oracle : Oracle) (mountFd : Nat) (buf : List Nat)
    (offset n fuel : Nat) (ev : FanotifyEventMetadata) (fid : FanotifyEventInfoFid)
    (fh : FileHandleInfo) (payload : List Nat)
    (hm : parseMetadata buf offset = some ev)
    (hfid : parseInfoFid buf (offset + 24) = some fid)
    (hfh : parseFileHandleInfo buf (offset + 36) = some fh)
    (hpay : readBytes buf (offset + 44) fh.bytes = some payload)
    (hstale : oracle.openByHandle mountFd fh.typ payload = .estale) :
    decodeRecord oracle mountFd buf offset = .skip (offset + ev.event_len) [] [] ∧
    (offset < n →
      (drainLoop oracle mountFd buf n (fuel + 1) offset).events =
        (drainLoop oracle mountFd buf n fuel (offset + ev.event_len)).events ∧
      (drainLoop oracle mountFd buf n (fuel + 1) offset).diags =
        (drainLoop oracle mountFd buf n fuel (offset + ev.event_len)).diags) := by
  have hd : decodeRecord oracle mountFd buf offset =
      .skip (offset + ev.event_len) [] [] := by
    unfold decodeRecord
    simp only [hm, hfid, hfh, hpay, hstale]
  refine ⟨hd, fun hlt => ?_⟩
  rw [drainLoop_succ, if_pos hlt]
  simp [hd]

/-- Witness for C5 on a concrete 45-byte record whose handle is stale. -/
theorem stale_handle_silently_skipped_check :
    parseMetadata bufEmptyName 0 = some ⟨45, 3, 0, 24, 256, 0, 0⟩ ∧
    parseInfoFid bufEmptyName 24 = some ⟨2, 0, 0, 0⟩ ∧
    parseFileHandleInfo bufEmptyName 36 = some ⟨0, 1⟩ ∧
    readBytes bufEmptyName 44 0 = some [] ∧
    oStale.openByHandle 3 1 [] = .estale ∧
    decodeRecord oStale 3 bufEmptyName 0 = .skip 45 [] [] := by
  refine ⟨by decide, by decide, by decide, by decide, by decide, ?_⟩
  have h := stale_handle_silently_skipped oStale 3 bufEmptyName 0 45 0
    ⟨45, 3, 0, 24, 256, 0, 0⟩ ⟨2, 0, 0, 0⟩ ⟨0, 1⟩ []
    (by decide) (by decide) (by decide) (by decide) (by decide)
  exact h.1

theorem readLoop_cons_none (oracle : Oracle) (mountFd fuel : Nat)
    (rest : List (Option (List Nat))) (buf : List Nat) :
    readLoop oracle mountFd fuel (none :: rest) buf =
      ⟨[], ["unable to read"], [], .readErr⟩ := rfl

theorem readLoop_cons_some (oracle : Oracle) (mountFd fuel : Nat) (bs : List Nat)
    (rest : List (Option (List Nat))) (buf : List Nat) :
    readLoop oracle mountFd fuel (some bs :: rest) buf =
      (let nextBuf := bs ++ buf.drop bs.length
       let d := drainLoop oracle mountFd nextBuf bs.length fuel 0
       match d.exit with
       | .panicked => ⟨d.events, d.diags, d.ops, .panicked⟩
       | .fuelOut => ⟨d.events, d.diags, d.ops, .fuelOut⟩
       | _ =>
         let r := readLoop oracle mountFd fuel rest nextBuf
         ⟨d.events ++ r.events, d.diags ++ r.diags, d.ops ++ r.ops, r.exit⟩) := rfl

/-- C9: a header-parse failure mid-buffer stops that drain cycle (the rest of
the buffer is discarded, no further events), after which the reader returns
to the blocking read; a read error on the notification descriptor instead
terminates the reader loop without touching later reads. -/
theorem header_parse_failure_ends_cycle (oracle : Oracle) (mountFd : Nat)
    (buf : List Nat) (offset n fuel : Nat)
    (hfail : decodeRecord oracle mountFd buf offset = .headerFail)
    (hlt : offset < n) :
    drainLoop oracle mountFd buf n (fuel + 1) offset =
      ⟨[], ["failed to read event metadata"], [], .headerStop, offset⟩ ∧
    (∀ (rest : List (Option (List Nat))) (buf0 : List Nat),
      readLoop oracle mountFd fuel (none :: rest) buf0 =
        ⟨[], ["unable to read"], [], .readErr⟩) ∧
    (∀ (bs : List Nat) (rest : List (Option (List Nat))) (buf0 : List Nat),
      (drainLoop oracle mountFd (bs ++ buf0.drop bs.length) bs.length fuel 0).exit =
          .headerStop →
      readLoop oracle mountFd fuel (some bs :: rest) buf0 =
        ⟨(drainLoop oracle mountFd (bs ++ buf0.drop bs.length) bs.length fuel 0).events ++
            (readLoop oracle mountFd fuel rest (bs ++ buf0.drop bs.length)).events,
         (drainLoop oracle mountFd (bs ++ buf0.drop bs.length) bs.length fuel 0).diags ++
            (readLoop oracle mountFd fuel rest (bs ++ buf0.drop bs.length)).diags,
         (drainLoop oracle mountFd (bs ++ buf0.drop bs.length) bs.length fuel 0).ops ++
            (readLoop oracle mountFd fuel rest (bs ++ buf0.drop bs.length)).ops,
         (readLoop oracle mountFd fuel rest (bs ++ buf0.drop bs.length)).exit⟩) := by
  refine ⟨?_, ?_, ?_⟩
  · rw [drainLoop_succ, if_pos hlt]
    simp only [hfail]
  · intro rest buf0
    exact readLoop_cons_none oracle mountFd fuel rest buf0
  · intro bs rest buf0 hexit
    rw [readLoop_cons_some]
    simp only [hexit]

/-- Witness for C9: the header at offset 10 of a 24-byte delivery cannot
parse, and the cycle stops with the remaining bytes discarded. -/
theorem header_parse_failure_ends_cycle_check :
    decodeRecord oStale 3 bufHdrOnly 10 = .headerFail ∧
    10 < 24 ∧
    drainLoop oStale 3 bufHdrOnly 24 1 10 =
      ⟨[], ["failed to read event metadata"], [], .headerStop, 10⟩ := by
  refine ⟨by decide, by decide, ?_⟩
  exact (header_parse_failure_ends_cycle oStale 3 bufHdrOnly 10 24 0
    (by decide) (by decide)).1

/-- C10 (amended): the drain loop starts records only at offsets below `n`
and exits as soon as the offset reaches `n`; on normal completion the final
offset is at least `n` (it may exceed `n` within the last record, but a new
iteration never begins at or beyond `n`). -/
theorem drain_final_offset_bound (oracle : Oracle) (mountFd : Nat) (buf : List Nat)
    (n : Nat) : ∀ (fuel offset : Nat),
    (drainLoop oracle mountFd buf n fuel offset).exit = .finished →
      n ≤ (drainLoop oracle mountFd buf n fuel offset).final := by
  intro fuel
  induction fuel with
  | zero =>
    intro offset
    rw [drainLoop_zero]
    by_cases h : offset < n
    · rw [if_pos h]
      intro hx
      simp at hx
    · rw [if_neg h]
      intro _
      simpa using Nat.le_of_not_lt h
  | succ f ih =>
    intro offset
    rw [drainLoop_succ]
    by_cases h : offset < n
    · rw [if_pos h]
      cases hd : decodeRecord oracle mountFd buf offset with
      | headerFail =>
        intro hx
        simp at hx
      | panicOut ops =>
        intro hx
        simp at hx
      | skip next ds ops =>
        intro hx
        exact ih next hx
      | emit e next ops =>
        intro hx
        exact ih next hx
    · rw [if_neg h]
      intro _
      simpa using Nat.le_of_not_lt h

/-- Witness for the amended C10 on a trivially finished drain. -/
theorem drain_final_offset_bound_check :
    (drainLoop oStale 3 [] 0 0 5).exit = .finished ∧
    0 ≤ (drainLoop oStale 3 [] 0 0 5).final := by
  refine ⟨by decide, ?_⟩
  exact drain_final_offset_bound oStale 3 [] 0 0 5 (by decide)

/-- C10 counterexample: 24 bytes are delivered into the 4096-byte buffer but
the lone header declares length 60, so decoding consumes stale bytes past
`n = 24` and the cycle ends with the cursor at offset 60 > 24, refuting
"the decode cursor never advances past the number of bytes actually read". -/
theorem cursor_advances_past_read_length :
    bufOverrun.length = 4096 ∧
    drainLoop oStale 3 bufOverrun 24 2 0 = ⟨[], [], [], .finished, 60⟩ ∧
    24 < 60 := by
  have hlen : bufOverrun.length = 4096 := by
    simp only [bufOverrun, List.length_append, List.length_replicate, List.length_cons,
      List.length_nil]
  have hmeta : parseMetadata bufOverrun 0 = some ⟨60, 3, 0, 24, 1, 0, 0⟩ := by
    unfold parseMetadata
    rw [hlen, if_pos (show (24 : Nat) ≤ 4096 - 0 by omega)]
    simp only [Option.some.injEq, FanotifyEventMetadata.mk.injEq]
    refine ⟨by decide, by decide, by decide, by decide, by decide, by decide, by decide⟩
  have hfid : parseInfoFid bufOverrun 24 = some ⟨0, 0, 0, 0⟩ := by
    unfold parseInfoFid
    rw [hlen, if_pos (show (12 : Nat) ≤ 4096 - 24 by omega)]
    simp only [Option.some.injEq, FanotifyEventInfoFid.mk.injEq]
    refine ⟨by decide, by decide, by decide, by decide⟩
  have hfh : parseFileHandleInfo bufOverrun 36 = some ⟨0, 0⟩ := by
    unfold parseFileHandleInfo
    rw [hlen, if_pos (show (8 : Nat) ≤ 4096 - 36 by omega)]
    simp only [Option.some.injEq, FileHandleInfo.mk.injEq]
    refine ⟨by decide, by decide⟩
  have hpay : readBytes bufOverrun 44 0 = some [] := by
    unfold readBytes
    rw [hlen, if_pos (show (0 : Nat) ≤ 4096 - 44 by omega)]
    simp
  have hdec : decodeRecord oStale 3 bufOverrun 0 = .skip 60 [] [] := by
    unfold decodeRecord
    simp [hmeta, hfid, hfh, hpay, oStale]
  have h2 : drainLoop oStale 3 bufOverrun 24 1 60 = ⟨[], [], [], .finished, 60⟩ := by
    rw [show (1 : Nat) = 0 + 1 from rfl, drainLoop_succ,
      if_neg (show ¬(60 : Nat) < 24 by omega)]
  have hdrain : drainLoop oStale 3 bufOverrun 24 2 0 = ⟨[], [], [], .finished, 60⟩ := by
    rw [show (2 : Nat) = 1 + 1 from rfl, drainLoop_succ,
      if_pos (show (0 : Nat) < 24 by omega)]
    simp [hdec, h2]
  exact ⟨hlen, hdrain, by omega⟩

/-- C3 (code evaluation): a record declaring length 24 whose sub-records
parse and whose handle resolves drives `buf[start:end]` to `start = 44 >
end = 24`: the Go slice expression panics instead of abandoning the record,
and the whole drain cycle aborts. -/
theorem short_declared_length_panics :
    decodeRecord oResolve 3 bufShortLen 0 = .panicOut [.openFd 5, .closeFd 5] ∧
    drainLoop oResolve 3 bufShortLen 44 2 0 =
      ⟨[], [], [.openFd 5, .closeFd 5], .panicked, 0⟩ := by
  refine ⟨by decide, by decide⟩

/-- C4 (code evaluation): when `os.Readlink` fails, the record path exits via
`continue` without `unix.Close`, leaving the opened descriptor open — the
descriptor balance of the trace is 1, not 0 — whereas the successful path
balances opens and closes. -/
theorem readlink_failure_leaks_descriptor :
    decodeRecord oLeak 3 bufEmptyName 0 =
      .skip 45 ["failed to read symlink"] [.openFd 7] ∧
    openCloseDelta [.openFd 7] = 1 ∧
    openCloseDelta [.openFd 5, .closeFd 5] = 0 ∧
    (1 : Int) ≠ 0 := by
  refine ⟨by decide, by decide, by decide, by decide⟩

/-- C6 counterexample: `main` restarts `readEvents` after a fatal read
error, and each invocation opens the watch-target descriptor again: two
sessions perform two mount opens, refuting "opened exactly once at process
startup". -/
theorem mount_fd_reopened_per_restart :
    mainMountOpens oResolve 1 [[none], [none]] = 2 ∧ (2 : Nat) ≠ 1 := by
  refine ⟨by decide, by decide⟩

/-- C6 (amended): the directory-context descriptor is opened exactly once per
`readEvents` invocation (before the read loop, used by every resolution call
of that invocation), and `main`'s restart loop therefore opens one new
descriptor per session. -/
theorem mount_fd_opened_once_per_invocation (oracle : Oracle) (fuel m : Nat)
    (sessions : List (List (Option (List Nat))))
    (hopen : oracle.openMount = some m) :
    (∀ reads, (readEvents oracle fuel reads).1 = 1) ∧
    mainMountOpens oracle fuel sessions = sessions.length := by
  have h1 : ∀ reads, (readEvents oracle fuel reads).1 = 1 := by
    intro reads
    unfold readEvents
    rw [hopen]
  refine ⟨h1, ?_⟩
  induction sessions with
  | nil => simp [mainMountOpens]
  | cons s ss ih =>
    have ihx : (List.map (fun t => (readEvents oracle fuel t).1) ss).sum = ss.length := ih
    simp only [mainMountOpens, List.map_cons, List.sum_cons, List.length_cons, h1 s, ihx]
    omega

/-- Witness for the amended C6 with two restarted sessions. -/
theorem mount_fd_opened_once_per_invocation_check :
    oResolve.openMount = some 3 ∧
    mainMountOpens oResolve 1 [[none], [none]] = ([[none], [none]] :
      List (List (Option (List Nat)))).length := by
  refine ⟨rfl, ?_⟩
  exact (mount_fd_opened_once_per_invocation oResolve 1 3 [[none], [none]] rfl).2

theorem splitSlash_ne_nil (cs : List Char) : splitSlash cs ≠ [] := by
  induction cs with
  | nil => simp [splitSlash]
  | cons c t ih =>
    cases h : splitSlash t with
    | nil => exact absurd h ih
    | cons g gs =>
      simp only [splitSlash, h]
      split <;> simp

theorem splitSlash_append_slash (a : List Char) :
    splitSlash (a ++ ['/']) = splitSlash a ++ [[]] := by
  induction a with
  | nil => decide
  | cons c t ih =>
    obtain ⟨g, gs, hg⟩ : ∃ g gs, splitSlash t = g :: gs := by
      cases h : splitSlash t with
      | nil => exact absurd h (splitSlash_ne_nil t)
      | cons g gs => exact ⟨g, gs, rfl⟩
    show splitSlash (c :: (t ++ ['/'])) = splitSlash (c :: t) ++ [[]]
    unfold splitSlash
    rw [ih, hg, List.cons_append]
    by_cases hc : c = '/' <;> simp [hc]

theorem cleanPath_append_slash (a : List Char) (ha : a ≠ []) :
    cleanPath (a ++ ['/']) = cleanPath a := by
  have h1 : (a ++ ['/']).isEmpty = false := by
    cases a <;> simp
  have h2 : a.isEmpty = false := by
    cases a with
    | nil => exact absurd rfl ha
    | cons c t => simp
  have h3 : (a ++ ['/']).head? = a.head? := by
    cases a with
    | nil => exact absurd rfl ha
    | cons c t => simp
  unfold cleanPath
  rw [h1, h2, h3, splitSlash_append_slash]
  rw [List.filter_append]
  simp

theorem filepathJoin_nil_right (a : List Char) (ha : a ≠ []) :
    filepathJoin a [] = cleanPath a := by
  unfold filepathJoin
  rw [if_pos ha]
  have h : a ++ '/' :: ([] : List Char) = a ++ ['/'] := rfl
  rw [h, cleanPath_append_slash a ha]

/-- C7 counterexample: a resolved record whose 2-byte name span `"ab"`
carries no NUL terminator.  The code takes the bytes before the first NUL —
here the whole span — and emits `/d/ab`, while "span minus a single trailing
terminator byte" would be `"a"`, giving `/d/a`. -/
theorem trailing_name_not_span_minus_terminator :
    decodeRecord oDirD 3 bufNoNul 0 =
      .emit ⟨256, ['/', 'd', '/', 'a', 'b']⟩ 46 [.openFd 9, .closeFd 9] ∧
    byteSliceToChars [97, 98] = ['a', 'b'] ∧
    filepathJoin (("/d").toList) (([97, 98].dropLast).map Char.ofNat) =
      ['/', 'd', '/', 'a'] ∧
    (['/', 'd', '/', 'a', 'b'] : List Char) ≠ ['/', 'd', '/', 'a'] := by
  refine ⟨by decide, by decide, by decide, by decide⟩

/-- C7 (amended): for a successfully resolved record the trailing name is
the maximal prefix of the span bytes before the first NUL (for a span that
is the name followed by a single terminating NUL this is the span minus the
terminator), the emitted full path is the resolved directory joined with
that name, and an empty name yields `Clean(dir)` — the directory path alone,
with no trailing separator. -/
theorem name_is_bytes_before_first_nul (oracle : Oracle) (mountFd : Nat)
    (pre post : List Nat) (r : RecSpec) (fd : Nat) (dir : List Char)
    (hwf : r.WF)
    (hopen : oracle.openByHandle mountFd r.fhType r.fhBytes = .ok fd)
    (hlink : oracle.readlink fd = some dir)
    (hne : trimSuffix dir deletedSuffix ≠ []) :
    decodeRecord oracle mountFd (pre ++ (encodeRecord r ++ post)) pre.length =
      .emit ⟨r.mask, filepathJoin (trimSuffix dir deletedSuffix)
          (r.name.map Char.ofNat)⟩
        (pre.length + r.len) [.openFd fd, .closeFd fd] ∧
    byteSliceToChars (r.name ++ [0]) = r.name.map Char.ofNat ∧
    (r.name = [] →
      filepathJoin (trimSuffix dir deletedSuffix) (r.name.map Char.ofNat) =
        cleanPath (trimSuffix dir deletedSuffix)) := by
  refine ⟨decodeRecord_encoded oracle mountFd pre post r fd dir hwf hopen hlink, ?_, ?_⟩
  · exact byteSliceToChars_name r.name (fun b hb => (hwf.2.2.2.2 b hb).1)
  · intro h0
    rw [h0]
    simp only [List.map_nil]
    exact filepathJoin_nil_right _ hne

/-- Witness for the amended C7 on an empty-name record resolving to
`/tmp/sub`: the emitted path is the cleaned directory alone. -/
theorem name_is_bytes_before_first_nul_check :
    recE.WF ∧
    oResolve.openByHandle 3 recE.fhType recE.fhBytes = .ok 5 ∧
    oResolve.readlink 5 = some (("/tmp/sub").toList) ∧
    trimSuffix (("/tmp/sub").toList) deletedSuffix ≠ [] ∧
    decodeRecord oResolve 3 ([] ++ (encodeRecord recE ++ [])) ([] : List Nat).length =
      .emit ⟨recE.mask, filepathJoin (trimSuffix (("/tmp/sub").toList) deletedSuffix)
          (recE.name.map Char.ofNat)⟩
        (([] : List Nat).length + recE.len) [.openFd 5, .closeFd 5] ∧
    (recE.name = [] →
      filepathJoin (trimSuffix (("/tmp/sub").toList) deletedSuffix)
          (recE.name.map Char.ofNat) =
        cleanPath (trimSuffix (("/tmp/sub").toList) deletedSuffix)) := by
  have hw : recE.WF := by
    unfold RecSpec.WF
    refine ⟨by decide, by decide, by decide, by decide, by decide⟩
  have h := name_is_bytes_before_first_nul oResolve 3 [] [] recE 5
    (("/tmp/sub").toList) hw (by decide) (by decide) (by decide)
  exact ⟨hw, by decide, by decide, by decide, h.1, h.2.2⟩
